import Mathlib

/-!
Verification of the orderBookFutures polling/persistence core.

The Python source is shallowly embedded: `time.time()` floats become exact
rationals, exchange price/volume strings become rationals, Python lists
become Lean lists, in-place mutation becomes explicit state passing, and a
caught exception becomes an `Except` value.
-/

namespace OrderBookFutures

/-! ## Definitions -/

/-- Python's `%` on reals with a positive divisor: `x % y = x - y * floor(x / y)`.
This is the `time_now % sample_interval` of `DataLogger.get_next_target`
(src/orderbook_binance.py line 219), with floats modelled as rationals. -/
def pymod (x y : ℚ) : ℚ := x - y * ⌊x / y⌋

/-- `DataLogger.get_next_target` (src/orderbook_binance.py lines 213-220):
`delta = sample_interval - (time_now % sample_interval)`;
`next_target = time_now + delta`. -/
def get_next_target (time_now sample_interval : ℚ) : ℚ :=
  time_now + (sample_interval - pymod time_now sample_interval)

/-- One iteration of the row-building loop in `DataLogger.get_data`
(src/orderbook_binance.py lines 170-180): for index `i`, append the `i`-th
bid level's price and volume (or `0, 0` past the end of the response), then
the `i`-th ask level's price and volume (or `0, 0`). A level is a
`(price, volume)` pair; the exchange's decimal strings are modelled as
rationals. -/
def rowChunk (bids asks : List (ℚ × ℚ)) (i : ℕ) : List ℚ :=
  (if h : i < bids.length then [(bids.get ⟨i, h⟩).1, (bids.get ⟨i, h⟩).2]
   else [0, 0]) ++
  (if h : i < asks.length then [(asks.get ⟨i, h⟩).1, (asks.get ⟨i, h⟩).2]
   else [0, 0])

/-- The numeric tail of the order-book row built by `DataLogger.get_data`
(`for i in range(20): ...`, lines 170-180): twenty interleaved
bid-pair/ask-pair chunks appended in order. -/
def get_data_row (bids asks : List (ℚ × ℚ)) : List ℚ :=
  (List.range 20).flatMap (rowChunk bids asks)

/-- The `(price, volume)` pair stored at flat positions `j` and `j + 1` of a
row's numeric tail. -/
def pairAt (row : List ℚ) (j : ℕ) : ℚ × ℚ :=
  ((row.get? j).getD 0, (row.get? (j + 1)).getD 0)

/-- The `order_imbalance` accumulation of `DataLogger.get_data`
(lines 156-165): starting from `0`, add `volume * price`
(`float(bids[1]) * float(bids[0])`) for every level of the raw response. -/
def order_imbalance_value (levels : List (ℚ × ℚ)) : ℚ :=
  levels.foldl (fun acc l => acc + l.2 * l.1) 0

/-- A raw `futures_order_book` response: `bids` and `asks` as lists of
`(price, volume)` levels, in response order. -/
structure RawOrderBook where
  bids : List (ℚ × ℚ)
  asks : List (ℚ × ℚ)
deriving DecidableEq

/-- One entry of `self.order_imbalance_data` (lines 153-158); the `date`
string is represented by the tick's target timestamp. -/
structure ImbalanceRow where
  market : String
  target : ℚ
  order_imbalance_bid : ℚ
  order_imbalance_ask : ℚ
deriving DecidableEq

/-- One entry of `self.orderbook_data` (lines 169-182): the market, the
tick's target timestamp, and the 80 interleaved level values. -/
structure OrderBookRow where
  market : String
  target : ℚ
  vals : List ℚ
deriving DecidableEq

/-- The two shared result lists populated by the `get_data` calls of one
tick. -/
structure TickState where
  order_imbalance_data : List ImbalanceRow
  orderbook_data : List OrderBookRow
deriving DecidableEq

/-- `DataLogger.get_data` for one market (lines 147-186). The fetch outcome
is passed as an `Except` value: `.error` is the caught-exception path (log
and append nothing); on `.ok raw` the function appends an imbalance row when
`SAVE_ORDER_IMBALANCE and self.save_order_imbalance_count` holds (the
combined flag `save_imb`), then appends the fixed-width order-book row. -/
def get_data (target : ℚ) (save_imb : Bool) (market : String)
    (fetch : Except String RawOrderBook) (st : TickState) : TickState :=
  match fetch with
  | .error _ => st
  | .ok raw =>
    let st1 :=
      if save_imb then
        { st with order_imbalance_data := st.order_imbalance_data ++
            [⟨market, target, order_imbalance_value raw.bids,
              order_imbalance_value raw.asks⟩] }
      else st
    { st1 with orderbook_data := st1.orderbook_data ++
        [⟨market, target, get_data_row raw.bids raw.asks⟩] }

/-- The fan-out phase of one tick of `DataLogger.run` (lines 99-118): fresh
empty result lists, then one `get_data` per configured market. -/
def run_fetch_phase (target : ℚ) (save_imb : Bool)
    (fetchOf : String → Except String RawOrderBook)
    (markets : List String) : TickState :=
  markets.foldl (fun st m => get_data target save_imb m (fetchOf m) st) ⟨[], []⟩

/-- The order-book rows contributed by the markets whose fetch succeeded,
in market order: one fixed-width row per successful market, none for a
failing market. -/
def fetched_orderbook_rows (target : ℚ)
    (fetchOf : String → Except String RawOrderBook)
    (markets : List String) : List OrderBookRow :=
  markets.filterMap (fun m =>
    match fetchOf m with
    | .ok raw => some ⟨m, target, get_data_row raw.bids raw.asks⟩
    | .error _ => none)

/-- The imbalance rows contributed by the markets whose fetch succeeded. -/
def fetched_imbalance_rows (target : ℚ)
    (fetchOf : String → Except String RawOrderBook)
    (markets : List String) : List ImbalanceRow :=
  markets.filterMap (fun m =>
    match fetchOf m with
    | .ok raw => some ⟨m, target, order_imbalance_value raw.bids,
        order_imbalance_value raw.asks⟩
    | .error _ => none)

/-- A concrete fetch outcome map: market `BBB` times out, every other
market returns a small raw book. -/
def demo_fetch : String → Except String RawOrderBook := fun m =>
  if m = "BBB" then .error "timeout"
  else .ok ⟨[(100, 1), (90, 2)], [(110, 1)]⟩

/-- The natural key of a persisted order-book row: the market (selecting the
per-market table `orderbook_{market}`) together with the row's `date`. -/
abbrev OBKey := String × String

/-- A batch row handed to `DatabaseConnector.insert_orderbook_data`
(src/database_connector.py lines 184-233): the market identifier, the date
string, and the 80 non-key column values. -/
structure BatchRow where
  market : String
  date : String
  vals : List ℚ
deriving DecidableEq

def BatchRow.key (r : BatchRow) : OBKey := (r.market, r.date)

/-- The rows visible through the per-market order-book tables, as an
association list from `(market, date)` keys to the row's non-key column
values. The schema declares `date` `UNIQUE` per table (lines 159-167), so a
key identifies at most one row. -/
abbrev OBStore := List (OBKey × List ℚ)

/-- `INSERT ... ON CONFLICT (date) DO UPDATE SET (cols) = (EXCLUDED cols)`
(src/database_connector.py lines 208-215): if the key is already present,
overwrite the non-key columns of that row in place; otherwise add a new
row. -/
def upsert (k : OBKey) (v : List ℚ) : OBStore → OBStore
  | [] => [(k, v)]
  | (k', v') :: rest =>
      if k' = k then (k, v) :: rest else (k', v') :: upsert k v rest

/-- The store effect of `DatabaseConnector.insert_orderbook_data` on the
all-successful path: one upsert statement per batch row, in batch order
(lines 195-219). -/
def insert_orderbook_upserts (batch : List BatchRow) (s : OBStore) : OBStore :=
  batch.foldl (fun st r => upsert r.key r.vals st) s

/-- The row stored under key `k`, if any. -/
def lookupOB (k : OBKey) : OBStore → Option (List ℚ)
  | [] => none
  | (k', v) :: rest => if k' = k then some v else lookupOB k rest

/-- The non-key values of the last row of the batch carrying key `k`,
if any. -/
def lastVal (k : OBKey) : List BatchRow → Option (List ℚ)
  | [] => none
  | r :: rest =>
      match lastVal k rest with
      | some v => some v
      | none => if r.key = k then some r.vals else none

/-- The keys of the stored rows, in store order. -/
def keysOf (s : OBStore) : List OBKey := s.map Prod.fst

/-- The control flow of `DatabaseConnector.insert_orderbook_data`
(src/database_connector.py lines 192-233) on the connected path, with the
database round-trip abstracted by `exec : market → row-data → Bool`. For
each row, `data.pop(0)` removes the leading market identifier in place
(modelled by `headD`/`tail`; every row built by `get_data` is nonempty, with
the market at its head), then the upsert statement is executed; on the first
failing row the function returns `False` at once, leaving the remaining
rows unprocessed. It returns the caller's rows as mutated by the call
together with the success flag. -/
def insert_orderbook_rows (exec : String → List String → Bool) :
    List (List String) → List (List String) × Bool
  | [] => ([], true)
  | row :: rest =>
    let market := row.headD ""
    let popped := row.tail
    if exec market popped then
      let result := insert_orderbook_rows exec rest
      (popped :: result.1, result.2)
    else
      (popped :: rest, false)

/-- The loop-owned mutable state of `DataLogger.run`: the `running` flag,
the imbalance alternation flag `save_order_imbalance_count` (initially
`True`, line 63), and the error log. -/
structure RunState where
  running : Bool
  save_order_imbalance_count : Bool
  errors : List String
deriving DecidableEq

/-- The persist-and-advance tail of one iteration of the `while self.running`
loop of `DataLogger.run` (src/orderbook_binance.py lines 124-141),
parameterized by the module flags and by the outcomes of the two insert
calls: a `False` from `insert_orderbook_data` (resp. the imbalance insert,
attempted only when `self.save_order_imbalance_count and
SAVE_ORDER_IMBALANCE`) is logged and the loop simply proceeds — `running`
is never touched; finally the alternation flag is negated when
`SAVE_ORDER_IMBALANCE_JUMP` is set. -/
def run_tick (save_order_imbalance save_order_imbalance_jump : Bool)
    (insert_ob_ok insert_imb_ok : Bool) (st : RunState) : RunState :=
  let errs1 := if insert_ob_ok then st.errors
    else st.errors ++ ["Unable to save orderbook data."]
  let errs2 :=
    if st.save_order_imbalance_count && save_order_imbalance && !insert_imb_ok
    then errs1 ++ ["Unable to save order imbalance data."]
    else errs1
  { running := st.running
    save_order_imbalance_count :=
      if save_order_imbalance_jump then !st.save_order_imbalance_count
      else st.save_order_imbalance_count
    errors := errs2 }

/-- The loop state on entering the first tick: `running = True` (line 67),
`save_order_imbalance_count = True` (line 63), no errors logged. -/
def initial_run_state : RunState := ⟨true, true, []⟩

/-- The loop state after `n` completed ticks, the `i`-th tick's insert
outcomes being `ob_ok i` and `imb_ok i`. -/
def run_ticks (save_order_imbalance save_order_imbalance_jump : Bool)
    (ob_ok imb_ok : ℕ → Bool) : ℕ → RunState
  | 0 => initial_run_state
  | n + 1 =>
    run_tick save_order_imbalance save_order_imbalance_jump (ob_ok n)
      (imb_ok n)
      (run_ticks save_order_imbalance save_order_imbalance_jump ob_ok imb_ok n)

/-- A concrete per-row outcome map for witnesses: rows of market `BAD`
fail, all others succeed. -/
def demo_exec : String → List String → Bool := fun market _ =>
  if market = "BAD" then false else true

/-- A stored order-book table row as read by `get_orderbook`: the row's
`date` as epoch seconds, and its 80 level values in
bid_price/bid_volume/ask_price/ask_volume-per-level order. -/
structure StoredRow where
  epoch : ℤ
  vals : List ℚ
deriving DecidableEq

/-- The four JSON fields of level `i` (1-based), as named by the
`json_build_object` field lists of `DatabaseConnector.get_orderbook`
(src/database_connector.py lines 330-338). -/
def levelFields (vals : List ℚ) (i : ℕ) : List (String × ℚ) :=
  [("bid_price_" ++ toString i, (vals.get? (4 * (i - 1))).getD 0),
   ("bid_volume_" ++ toString i, (vals.get? (4 * (i - 1) + 1)).getD 0),
   ("ask_price_" ++ toString i, (vals.get? (4 * (i - 1) + 2)).getD 0),
   ("ask_volume_" ++ toString i, (vals.get? (4 * (i - 1) + 3)).getD 0)]

/-- `fields1` of `get_orderbook` (lines 330-333): levels 1 to 10. -/
def fields1 (vals : List ℚ) : List (String × ℚ) :=
  (List.range 10).flatMap (fun j => levelFields vals (j + 1))

/-- `fields2` of `get_orderbook` (lines 335-338): levels 11 to 20. -/
def fields2 (vals : List ℚ) : List (String × ℚ) :=
  (List.range 10).flatMap (fun j => levelFields vals (j + 11))

/-- The aggregate object emitted per timestamp:
`json_each(json_build_object(fields1)) UNION ALL
json_each(json_build_object(fields2))`, re-aggregated with
`json_object_agg(key, value)` — the merged field list of all 20 levels. -/
def aggFields (vals : List ℚ) : List (String × ℚ) :=
  fields1 vals ++ fields2 vals

/-- One element of `get_orderbook`'s result list: the aggregate object for
one matching `date` group. `date` is `UNIQUE` in every order-book table, so
each `GROUP BY date` group is a single row. -/
structure AggRow where
  date : ℤ
  fields : List (String × ℚ)
deriving DecidableEq

/-- `DatabaseConnector.get_orderbook` (src/database_connector.py
lines 308-367): the WHERE clause keeps the rows with
`EXTRACT(epoch FROM date)::integer % period = 0` and
`date >= start AND date <= end` (both bounds inclusive); each kept row —
one per `GROUP BY date` group, `date` being `UNIQUE` — is emitted as one
aggregate object. -/
def get_orderbook (tbl : List StoredRow) (start stop period : ℤ) :
    List AggRow :=
  (tbl.filter (fun r =>
      decide (r.epoch % period = 0) && decide (start ≤ r.epoch) &&
      decide (r.epoch ≤ stop))).map
    (fun r => ⟨r.epoch, aggFields r.vals⟩)

/-- The 80 field names of the 20 level column families, in emission
order. -/
def expected_field_names : List String :=
  (List.range 20).flatMap (fun j =>
    ["bid_price_" ++ toString (j + 1), "bid_volume_" ++ toString (j + 1),
     "ask_price_" ++ toString (j + 1), "ask_volume_" ++ toString (j + 1)])

/-- The configured market set (src/orderbook_binance.py line 18). -/
def EXCHANGE_MARKETS : List String := ["BTCBUSD", "ETHBUSD"]

/-- The fan-out of one tick (src/orderbook_binance.py lines 104-112): the
loop builds one `threading.Thread(target=self.get_data, args=(market,))`
per configured market, in market order; a thread is identified here by its
market argument. -/
def spawned_threads (markets : List String) : List String := markets

/-- The shared mutable cells a spawned `get_data` thread appends to on its
success path: every thread appends to `self.orderbook_data` (line 182), and
on an imbalance-saving tick also to `self.order_imbalance_data` (line 167).
Both lists are attributes of the one shared `DataLogger` object — the
append target does not depend on which market the thread samples. -/
def thread_append_targets (save_imb : Bool) (_market : String) :
    List String :=
  (if save_imb then ["order_imbalance_data"] else []) ++ ["orderbook_data"]

/-- The observable events of one tick body of `DataLogger.run`, in program
order (lines 104-129): start every thread, join every thread, persist the
order-book batch, then — on a saving tick — persist the imbalance batch. -/
inductive TickEvent where
  | spawn (market : String)
  | join (market : String)
  | persist_orderbook
  | persist_imbalance
deriving DecidableEq

/-- The event sequence of one tick (lines 104-129). -/
def tick_events (markets : List String) (save_imb : Bool) : List TickEvent :=
  markets.map TickEvent.spawn ++ markets.map TickEvent.join ++
    [TickEvent.persist_orderbook] ++
    (if save_imb then [TickEvent.persist_imbalance] else [])

/-! ### Lemmas and theorems -/

theorem pymod_eq (x y : ℚ) : pymod x y = x - y * ⌊x / y⌋ := rfl

/-- **C1.** For every positive cadence `S` and every current time `now`,
`get_next_target now S` is an exact integer multiple of `S`, is strictly
greater than `now`, and when `now` is itself an exact multiple of `S`
(i.e. `now % S = 0`) the result is `now + S`, never `now`. -/
theorem C1_next_target_alignment (time_now S : ℚ) (hS : 0 < S) :
    (∃ k : ℤ, get_next_target time_now S = (k : ℚ) * S) ∧
    time_now < get_next_target time_now S ∧
    (pymod time_now S = 0 → get_next_target time_now S = time_now + S) := by
  have hne : S ≠ 0 := ne_of_gt hS
  have hval : get_next_target time_now S = ((⌊time_now / S⌋ : ℚ) + 1) * S := by
    unfold get_next_target pymod
    ring
  refine ⟨⟨⌊time_now / S⌋ + 1, by rw [hval]; push_cast; ring⟩, ?_, ?_⟩
  · rw [hval]
    have hlt : time_now / S < (⌊time_now / S⌋ : ℚ) + 1 := Int.lt_floor_add_one _
    calc time_now = time_now / S * S := by field_simp
    _ < ((⌊time_now / S⌋ : ℚ) + 1) * S := by
        exact mul_lt_mul_of_pos_right hlt hS
  · intro h0
    unfold get_next_target
    rw [h0]
    ring

/-- Witness for C1 at `now = 30`, `S = 10` (an exact multiple of the cadence). -/
theorem C1_witness :
    0 < (10 : ℚ) ∧
    ((∃ k : ℤ, get_next_target 30 10 = (k : ℚ) * 10) ∧
     30 < get_next_target 30 10 ∧
     (pymod 30 10 = 0 → get_next_target 30 10 = 30 + 10)) :=
  ⟨by decide, C1_next_target_alignment 30 10 (by decide)⟩

theorem length_rowChunk (bids asks : List (ℚ × ℚ)) (i : ℕ) :
    (rowChunk bids asks i).length = 4 := by
  unfold rowChunk
  split <;> split <;> simp

theorem length_bind_const (f : ℕ → List ℚ) (c : ℕ)
    (hc : ∀ x, (f x).length = c) (n : ℕ) :
    ((List.range n).flatMap f).length = n * c := by
  induction n with
  | zero => simp
  | succ n ih =>
    rw [List.range_succ, List.flatMap_append]
    simp [ih, hc, Nat.succ_mul]

theorem bind_range_get? (f : ℕ → List ℚ) (c : ℕ)
    (hc : ∀ x, (f x).length = c) (n i j : ℕ) (hi : i < n) (hj : j < c) :
    ((List.range n).flatMap f).get? (c * i + j) = (f i).get? j := by
  induction n with
  | zero => exact absurd hi (Nat.not_lt_zero i)
  | succ n ih =>
    rw [List.range_succ, List.flatMap_append]
    have hlen : ((List.range n).flatMap f).length = n * c :=
      length_bind_const f c hc n
    rcases Nat.lt_or_ge i n with h | h
    · rw [List.get?_append]
      · exact ih h
      · rw [hlen]
        calc c * i + j < c * i + c := by omega
        _ = c * (i + 1) := by ring
        _ ≤ c * n := Nat.mul_le_mul_left c h
        _ = n * c := Nat.mul_comm c n
    · have hin : i = n := le_antisymm (Nat.lt_succ_iff.mp hi) h
      subst hin
      have hle : ((List.range i).flatMap f).length ≤ c * i + j := by
        rw [hlen, Nat.mul_comm]
        omega
      rw [List.get?_append_right hle, hlen]
      have hsub : c * i + j - i * c = j := by
        rw [Nat.mul_comm c i]
        omega
      rw [hsub]
      simp

theorem get_data_row_get? (bids asks : List (ℚ × ℚ)) (i j : ℕ)
    (hi : i < 20) (hj : j < 4) :
    (get_data_row bids asks).get? (4 * i + j) = (rowChunk bids asks i).get? j :=
  bind_range_get? (rowChunk bids asks) 4 (length_rowChunk bids asks) 20 i j hi hj

/-- **C2.** For a raw response with `k ≤ 20` bid levels and `m ≤ 20` ask
levels, the numeric tail of the row built by `get_data` has exactly 80
entries — 20 `(bid price, bid volume)` pairs and 20 `(ask price, ask volume)`
pairs — and for every position `i < 20` the `i`-th bid pair (flat positions
`4i, 4i+1`) is the response's `i`-th bid level when `i < k` and `(0, 0)`
otherwise, and the `i`-th ask pair (flat positions `4i+2, 4i+3`) is the
response's `i`-th ask level when `i < m` and `(0, 0)` otherwise. -/
theorem C2_fixed_width_row (bids asks : List (ℚ × ℚ)) (i : ℕ)
    (hk : bids.length ≤ 20) (hm : asks.length ≤ 20) (hi : i < 20) :
    (get_data_row bids asks).length = 80 ∧
    pairAt (get_data_row bids asks) (4 * i) =
      (if h : i < bids.length then bids.get ⟨i, h⟩ else (0, 0)) ∧
    pairAt (get_data_row bids asks) (4 * i + 2) =
      (if h : i < asks.length then asks.get ⟨i, h⟩ else (0, 0)) := by
  have h0 := get_data_row_get? bids asks i 0 hi (by omega)
  have h1 := get_data_row_get? bids asks i 1 hi (by omega)
  have h2 := get_data_row_get? bids asks i 2 hi (by omega)
  have h3 := get_data_row_get? bids asks i 3 hi (by omega)
  refine ⟨?_, ?_, ?_⟩
  · exact length_bind_const (rowChunk bids asks) 4 (length_rowChunk bids asks) 20
  · rw [pairAt, Nat.add_zero] at *
    rw [h0, h1]
    by_cases hb : i < bids.length <;>
      by_cases ha : i < asks.length <;>
        simp [rowChunk, hb, ha]
  · rw [pairAt]
    rw [h2, show 4 * i + 2 + 1 = 4 * i + 3 by omega, h3]
    by_cases hb : i < bids.length <;>
      by_cases ha : i < asks.length <;>
        simp [rowChunk, hb, ha]

/-- Witness for C2 with 2 bid levels and 1 ask level at position `i = 1`. -/
theorem C2_witness :
    ([((100 : ℚ), (1 : ℚ)), (90, 2)] : List (ℚ × ℚ)).length ≤ 20 ∧
    ([((110 : ℚ), (1 : ℚ))] : List (ℚ × ℚ)).length ≤ 20 ∧ 1 < 20 ∧
    ((get_data_row [(100, 1), (90, 2)] [(110, 1)]).length = 80 ∧
     pairAt (get_data_row [(100, 1), (90, 2)] [(110, 1)]) (4 * 1) =
       (if h : 1 < ([((100 : ℚ), (1 : ℚ)), (90, 2)] : List (ℚ × ℚ)).length
        then ([((100 : ℚ), (1 : ℚ)), (90, 2)] : List (ℚ × ℚ)).get ⟨1, h⟩
        else (0, 0)) ∧
     pairAt (get_data_row [(100, 1), (90, 2)] [(110, 1)]) (4 * 1 + 2) =
       (if h : 1 < ([((110 : ℚ), (1 : ℚ))] : List (ℚ × ℚ)).length
        then ([((110 : ℚ), (1 : ℚ))] : List (ℚ × ℚ)).get ⟨1, h⟩
        else (0, 0))) :=
  ⟨by decide, by decide, by decide,
   C2_fixed_width_row [(100, 1), (90, 2)] [(110, 1)] 1
     (by decide) (by decide) (by decide)⟩

theorem foldl_add_eq_sum (f : ℚ × ℚ → ℚ) (l : List (ℚ × ℚ)) (init : ℚ) :
    l.foldl (fun acc x => acc + f x) init = init + (l.map f).sum := by
  induction l generalizing init with
  | nil => simp
  | cons x xs ih => simp [ih, add_assoc]

theorem order_imbalance_value_eq_sum (levels : List (ℚ × ℚ)) :
    order_imbalance_value levels = (levels.map (fun l => l.1 * l.2)).sum := by
  unfold order_imbalance_value
  rw [foldl_add_eq_sum (fun l => l.2 * l.1) levels 0, zero_add]
  congr 1
  exact List.map_congr_left (fun a _ => mul_comm a.2 a.1)

/-- **C3.** On an imbalance-saving tick, `get_data` appends an imbalance row
whose bid value is the sum of `price * volume` over **all** bid levels of the
raw response (however many there are, uncapped and unpadded), and whose ask
value is the analogous sum over all ask levels. -/
theorem C3_imbalance_full_depth (target : ℚ) (market : String)
    (raw : RawOrderBook) (st : TickState) :
    (get_data target true market (.ok raw) st).order_imbalance_data =
      st.order_imbalance_data ++
        [⟨market, target, (raw.bids.map (fun l => l.1 * l.2)).sum,
          (raw.asks.map (fun l => l.1 * l.2)).sum⟩] := by
  simp [get_data, order_imbalance_value_eq_sum]

theorem fetch_fold_characterization (target : ℚ) (save_imb : Bool)
    (fetchOf : String → Except String RawOrderBook) (markets : List String)
    (st : TickState) :
    markets.foldl (fun s m => get_data target save_imb m (fetchOf m) s) st =
      ⟨st.order_imbalance_data ++
         (if save_imb then fetched_imbalance_rows target fetchOf markets
          else []),
       st.orderbook_data ++ fetched_orderbook_rows target fetchOf markets⟩ := by
  induction markets generalizing st with
  | nil =>
    cases st
    cases save_imb <;>
      simp [fetched_orderbook_rows, fetched_imbalance_rows]
  | cons m rest ih =>
    simp only [List.foldl_cons]
    rw [ih]
    cases hfm : fetchOf m with
    | error e =>
      cases st
      cases save_imb <;>
        simp [get_data, hfm, fetched_orderbook_rows, fetched_imbalance_rows]
    | ok raw =>
      cases st
      cases save_imb <;>
        simp [get_data, hfm, fetched_orderbook_rows, fetched_imbalance_rows]

/-- **C5.** If a market's fetch raises, `get_data` for that market returns
normally with the shared state unchanged (no order-book row and no imbalance
row appended), the tick's fan-out still produces exactly the successful
markets' rows, and no row of either result list belongs to the failing
market. -/
theorem C5_partial_failure_isolation (target : ℚ) (save_imb : Bool)
    (fetchOf : String → Except String RawOrderBook) (markets : List String)
    (m : String) (e : String) (st : TickState)
    (hm : m ∈ markets) (he : fetchOf m = .error e) :
    get_data target save_imb m (fetchOf m) st = st ∧
    run_fetch_phase target save_imb fetchOf markets =
      ⟨if save_imb then fetched_imbalance_rows target fetchOf markets else [],
       fetched_orderbook_rows target fetchOf markets⟩ ∧
    (∀ r ∈ (run_fetch_phase target save_imb fetchOf markets).orderbook_data,
       r.market ≠ m) ∧
    (∀ r ∈ (run_fetch_phase target save_imb fetchOf markets).order_imbalance_data,
       r.market ≠ m) := by
  have hrun : run_fetch_phase target save_imb fetchOf markets =
      ⟨if save_imb then fetched_imbalance_rows target fetchOf markets else [],
       fetched_orderbook_rows target fetchOf markets⟩ := by
    unfold run_fetch_phase
    rw [fetch_fold_characterization]
    simp
  refine ⟨by rw [he]; rfl, hrun, ?_, ?_⟩
  · intro r hr
    rw [hrun] at hr
    simp only [fetched_orderbook_rows, List.mem_filterMap] at hr
    obtain ⟨a, _, ha⟩ := hr
    cases hfa : fetchOf a with
    | error _ => rw [hfa] at ha; exact absurd ha (by simp)
    | ok raw =>
      rw [hfa] at ha
      simp only [Option.some.injEq] at ha
      intro hcontra
      rw [← ha] at hcontra
      simp only at hcontra
      rw [hcontra] at hfa
      rw [he] at hfa
      exact absurd hfa (by simp)
  · intro r hr
    rw [hrun] at hr
    simp only at hr
    rcases hsave : save_imb with _ | _ <;> rw [hsave] at hr
    · simp at hr
    · simp only [if_true, fetched_imbalance_rows, List.mem_filterMap] at hr
      obtain ⟨a, _, ha⟩ := hr
      cases hfa : fetchOf a with
      | error _ => rw [hfa] at ha; exact absurd ha (by simp)
      | ok raw =>
        rw [hfa] at ha
        simp only [Option.some.injEq] at ha
        intro hcontra
        rw [← ha] at hcontra
        simp only at hcontra
        rw [hcontra] at hfa
        rw [he] at hfa
        exact absurd hfa (by simp)

/-- Witness for C5: three markets, `BBB` failing, on an imbalance tick. -/
theorem C5_witness :
    ("BBB" ∈ (["AAA", "BBB", "CCC"] : List String)) ∧
    demo_fetch "BBB" = .error "timeout" ∧
    (get_data 1000 true "BBB" (demo_fetch "BBB") ⟨[], []⟩ = ⟨[], []⟩ ∧
     run_fetch_phase 1000 true demo_fetch ["AAA", "BBB", "CCC"] =
       ⟨if (true : Bool) = true
        then fetched_imbalance_rows 1000 demo_fetch ["AAA", "BBB", "CCC"]
        else [],
        fetched_orderbook_rows 1000 demo_fetch ["AAA", "BBB", "CCC"]⟩ ∧
     (∀ r ∈ (run_fetch_phase 1000 true demo_fetch
          ["AAA", "BBB", "CCC"]).orderbook_data, r.market ≠ "BBB") ∧
     (∀ r ∈ (run_fetch_phase 1000 true demo_fetch
          ["AAA", "BBB", "CCC"]).order_imbalance_data, r.market ≠ "BBB")) :=
  ⟨by decide, rfl,
   C5_partial_failure_isolation 1000 true demo_fetch ["AAA", "BBB", "CCC"]
     "BBB" "timeout" ⟨[], []⟩ (by decide) rfl⟩

theorem keysOf_nil : keysOf [] = [] := rfl

theorem keysOf_cons (p : OBKey × List ℚ) (s : OBStore) :
    keysOf (p :: s) = p.1 :: keysOf s := rfl

theorem upsert_cons_eq (k : OBKey) (v v' : List ℚ) (rest : OBStore) :
    upsert k v ((k, v') :: rest) = (k, v) :: rest := by
  simp [upsert]

theorem upsert_cons_ne (k k' : OBKey) (v v' : List ℚ) (rest : OBStore)
    (h : k' ≠ k) : upsert k v ((k', v') :: rest) = (k', v') :: upsert k v rest := by
  simp [upsert, h]

theorem lookupOB_cons_eq (k : OBKey) (v : List ℚ) (rest : OBStore) :
    lookupOB k ((k, v) :: rest) = some v := by
  simp [lookupOB]

theorem lookupOB_cons_ne (k k' : OBKey) (v : List ℚ) (rest : OBStore)
    (h : k' ≠ k) : lookupOB k ((k', v) :: rest) = lookupOB k rest := by
  simp [lookupOB, h]

theorem mem_keys_upsert (k q : OBKey) (v : List ℚ) (s : OBStore) :
    q ∈ keysOf (upsert k v s) ↔ q = k ∨ q ∈ keysOf s := by
  induction s with
  | nil => simp [upsert, keysOf]
  | cons p rest ih =>
    obtain ⟨k', v'⟩ := p
    by_cases h : k' = k
    · subst h
      rw [upsert_cons_eq, keysOf_cons, keysOf_cons]
      simp only [List.mem_cons]
      tauto
    · rw [upsert_cons_ne k k' v v' rest h, keysOf_cons, keysOf_cons]
      simp only [List.mem_cons]
      rw [ih]
      tauto

theorem keys_upsert_of_mem (k : OBKey) (v : List ℚ) (s : OBStore)
    (h : k ∈ keysOf s) : keysOf (upsert k v s) = keysOf s := by
  induction s with
  | nil => simp [keysOf] at h
  | cons p rest ih =>
    obtain ⟨k', v'⟩ := p
    by_cases hp : k' = k
    · subst hp
      rw [upsert_cons_eq, keysOf_cons, keysOf_cons]
    · have hrest : k ∈ keysOf rest := by
        rw [keysOf_cons, List.mem_cons] at h
        rcases h with h | h
        · exact absurd h.symm hp
        · exact h
      rw [upsert_cons_ne k k' v v' rest hp, keysOf_cons, keysOf_cons,
        ih hrest]

theorem nodup_keys_upsert (k : OBKey) (v : List ℚ) (s : OBStore)
    (h : (keysOf s).Nodup) : (keysOf (upsert k v s)).Nodup := by
  induction s with
  | nil => simp [upsert, keysOf]
  | cons p rest ih =>
    obtain ⟨k', v'⟩ := p
    rw [keysOf_cons, List.nodup_cons] at h
    by_cases hp : k' = k
    · subst hp
      rw [upsert_cons_eq, keysOf_cons, List.nodup_cons]
      exact ⟨h.1, h.2⟩
    · rw [upsert_cons_ne k k' v v' rest hp, keysOf_cons, List.nodup_cons]
      refine ⟨?_, ih h.2⟩
      intro hmem
      rcases (mem_keys_upsert k k' v rest).mp hmem with heq | hmem'
      · exact hp heq
      · exact h.1 hmem'

theorem lookup_upsert_self (k : OBKey) (v : List ℚ) (s : OBStore) :
    lookupOB k (upsert k v s) = some v := by
  induction s with
  | nil => simp [upsert, lookupOB]
  | cons p rest ih =>
    obtain ⟨k', v'⟩ := p
    by_cases hp : k' = k
    · subst hp
      rw [upsert_cons_eq, lookupOB_cons_eq]
    · rw [upsert_cons_ne k k' v v' rest hp, lookupOB_cons_ne k k' v' _ hp]
      exact ih

theorem lookup_upsert_ne (k q : OBKey) (v : List ℚ) (s : OBStore)
    (h : q ≠ k) : lookupOB q (upsert k v s) = lookupOB q s := by
  have hkq : k ≠ q := fun hh => h hh.symm
  induction s with
  | nil => simp [upsert, lookupOB, hkq]
  | cons p rest ih =>
    obtain ⟨k', v'⟩ := p
    by_cases hp : k' = k
    · subst hp
      rw [upsert_cons_eq, lookupOB_cons_ne q k' v _ hkq,
        lookupOB_cons_ne q k' v' _ hkq]
    · by_cases hq : k' = q
      · subst hq
        rw [upsert_cons_ne k k' v v' rest hp, lookupOB_cons_eq,
          lookupOB_cons_eq]
      · rw [upsert_cons_ne k k' v v' rest hp, lookupOB_cons_ne q k' v' _ hq,
          lookupOB_cons_ne q k' v' _ hq]
        exact ih

theorem mem_keys_insert_mono (batch : List BatchRow) (s : OBStore)
    (k : OBKey) (h : k ∈ keysOf s) :
    k ∈ keysOf (insert_orderbook_upserts batch s) := by
  induction batch generalizing s with
  | nil => exact h
  | cons r rest ih =>
    exact ih _ ((mem_keys_upsert r.key k r.vals s).mpr (Or.inr h))

theorem key_mem_keys_insert (batch : List BatchRow) (s : OBStore)
    (r : BatchRow) (h : r ∈ batch) :
    r.key ∈ keysOf (insert_orderbook_upserts batch s) := by
  induction batch generalizing s with
  | nil => simp at h
  | cons r0 rest ih =>
    rcases List.mem_cons.mp h with heq | hmem
    · subst heq
      exact mem_keys_insert_mono rest _ r.key
        ((mem_keys_upsert r.key r.key r.vals s).mpr (Or.inl rfl))
    · exact ih _ hmem

theorem keys_insert_of_subset (batch : List BatchRow) (s : OBStore)
    (h : ∀ r ∈ batch, r.key ∈ keysOf s) :
    keysOf (insert_orderbook_upserts batch s) = keysOf s := by
  induction batch generalizing s with
  | nil => rfl
  | cons r rest ih =>
    have hk : keysOf (upsert r.key r.vals s) = keysOf s :=
      keys_upsert_of_mem r.key r.vals s (h r (List.mem_cons_self r rest))
    calc keysOf (insert_orderbook_upserts rest (upsert r.key r.vals s))
        = keysOf (upsert r.key r.vals s) := by
          refine ih _ (fun r' hr' => ?_)
          rw [hk]
          exact h r' (List.mem_cons_of_mem r hr')
    _ = keysOf s := hk

theorem nodup_keys_insert (batch : List BatchRow) (s : OBStore)
    (h : (keysOf s).Nodup) :
    (keysOf (insert_orderbook_upserts batch s)).Nodup := by
  induction batch generalizing s with
  | nil => exact h
  | cons r rest ih => exact ih _ (nodup_keys_upsert r.key r.vals s h)

theorem lookup_insert (k : OBKey) (batch : List BatchRow) (s : OBStore) :
    lookupOB k (insert_orderbook_upserts batch s) =
      match lastVal k batch with
      | some v => some v
      | none => lookupOB k s := by
  induction batch generalizing s with
  | nil => simp [insert_orderbook_upserts, lastVal]
  | cons r rest ih =>
    show lookupOB k (insert_orderbook_upserts rest (upsert r.key r.vals s)) = _
    rw [ih]
    cases hl : lastVal k rest with
    | some v => simp [lastVal, hl]
    | none =>
      by_cases hk : r.key = k
      · subst hk
        simp [lastVal, hl, lookup_upsert_self]
      · simp [lastVal, hl, hk,
          lookup_upsert_ne r.key k r.vals s (fun hh => hk hh.symm)]

/-- **C4.** Persisting the same batch twice is idempotent on the store:
the key list after the second persist is exactly the key list after the
first (re-delivery adds no row), keys stay duplicate-free (exactly one
stored row per `(market, date)` key), and for any key written by the batch
the stored values after both the first and the second persist are the
batch's last values for that key (last-write-wins). -/
theorem C4_idempotent_upsert (s : OBStore) (batch : List BatchRow)
    (k : OBKey) (v : List ℚ)
    (hnd : (keysOf s).Nodup) (hv : lastVal k batch = some v) :
    keysOf (insert_orderbook_upserts batch (insert_orderbook_upserts batch s)) =
      keysOf (insert_orderbook_upserts batch s) ∧
    (keysOf (insert_orderbook_upserts batch
        (insert_orderbook_upserts batch s))).Nodup ∧
    lookupOB k (insert_orderbook_upserts batch
        (insert_orderbook_upserts batch s)) = some v ∧
    lookupOB k (insert_orderbook_upserts batch s) = some v := by
  have hkeys : keysOf (insert_orderbook_upserts batch
      (insert_orderbook_upserts batch s)) =
      keysOf (insert_orderbook_upserts batch s) :=
    keys_insert_of_subset batch _ (fun r hr => key_mem_keys_insert batch s r hr)
  refine ⟨hkeys, ?_, ?_, ?_⟩
  · rw [hkeys]
    exact nodup_keys_insert batch s hnd
  · rw [lookup_insert, hv]
  · rw [lookup_insert, hv]

/-- Witness for C4: a two-row batch writing the same key twice, persisted
twice into an empty store. -/
theorem C4_witness :
    (keysOf ([] : OBStore)).Nodup ∧
    lastVal ("BTCBUSD", "2023-07-08 01:00:00+00")
      [⟨"BTCBUSD", "2023-07-08 01:00:00+00", [1, 2]⟩,
       ⟨"BTCBUSD", "2023-07-08 01:00:00+00", [3, 4]⟩] = some [3, 4] ∧
    (keysOf (insert_orderbook_upserts
        [⟨"BTCBUSD", "2023-07-08 01:00:00+00", [1, 2]⟩,
         ⟨"BTCBUSD", "2023-07-08 01:00:00+00", [3, 4]⟩]
        (insert_orderbook_upserts
          [⟨"BTCBUSD", "2023-07-08 01:00:00+00", [1, 2]⟩,
           ⟨"BTCBUSD", "2023-07-08 01:00:00+00", [3, 4]⟩] [])) =
      keysOf (insert_orderbook_upserts
        [⟨"BTCBUSD", "2023-07-08 01:00:00+00", [1, 2]⟩,
         ⟨"BTCBUSD", "2023-07-08 01:00:00+00", [3, 4]⟩] []) ∧
     (keysOf (insert_orderbook_upserts
        [⟨"BTCBUSD", "2023-07-08 01:00:00+00", [1, 2]⟩,
         ⟨"BTCBUSD", "2023-07-08 01:00:00+00", [3, 4]⟩]
        (insert_orderbook_upserts
          [⟨"BTCBUSD", "2023-07-08 01:00:00+00", [1, 2]⟩,
           ⟨"BTCBUSD", "2023-07-08 01:00:00+00", [3, 4]⟩] []))).Nodup ∧
     lookupOB ("BTCBUSD", "2023-07-08 01:00:00+00")
       (insert_orderbook_upserts
         [⟨"BTCBUSD", "2023-07-08 01:00:00+00", [1, 2]⟩,
          ⟨"BTCBUSD", "2023-07-08 01:00:00+00", [3, 4]⟩]
         (insert_orderbook_upserts
           [⟨"BTCBUSD", "2023-07-08 01:00:00+00", [1, 2]⟩,
            ⟨"BTCBUSD", "2023-07-08 01:00:00+00", [3, 4]⟩] [])) =
       some [3, 4] ∧
     lookupOB ("BTCBUSD", "2023-07-08 01:00:00+00")
       (insert_orderbook_upserts
         [⟨"BTCBUSD", "2023-07-08 01:00:00+00", [1, 2]⟩,
          ⟨"BTCBUSD", "2023-07-08 01:00:00+00", [3, 4]⟩] []) = some [3, 4]) :=
  ⟨by decide, by decide,
   C4_idempotent_upsert []
     [⟨"BTCBUSD", "2023-07-08 01:00:00+00", [1, 2]⟩,
      ⟨"BTCBUSD", "2023-07-08 01:00:00+00", [3, 4]⟩]
     ("BTCBUSD", "2023-07-08 01:00:00+00") [3, 4] (by decide) (by decide)⟩

theorem insert_rows_failfast (exec : String → List String → Bool)
    (pre post : List (List String)) (bad : List String)
    (hpre : ∀ r ∈ pre, exec (r.headD "") r.tail = true)
    (hbad : exec (bad.headD "") bad.tail = false) :
    insert_orderbook_rows exec (pre ++ bad :: post) =
      (pre.map List.tail ++ bad.tail :: post, false) := by
  have hbad' : exec (bad.head?.getD "") bad.tail = false := by
    rw [← List.headD_eq_head?]
    exact hbad
  induction pre with
  | nil => simp [insert_orderbook_rows, hbad']
  | cons r pre' ih =>
    have hr : exec (r.head?.getD "") r.tail = true := by
      rw [← List.headD_eq_head?]
      exact hpre r (List.mem_cons_self r pre')
    have ih' := ih (fun r' hr' => hpre r' (List.mem_cons_of_mem r hr'))
    simp [insert_orderbook_rows, hr, ih']

/-- **C6.** If the write for some row of a batch fails, the remaining rows
of the batch are left unprocessed and `insert_orderbook_data` returns
`False`; and the polling loop, upon that `False`, logs
`Unable to save orderbook data.` and proceeds with `running` still `true`
(the loop is not terminated). -/
theorem C6_failfast_soft_failure (exec : String → List String → Bool)
    (pre post : List (List String)) (bad : List String)
    (so jump imb_ok : Bool) (st : RunState)
    (hpre : ∀ r ∈ pre, exec (r.headD "") r.tail = true)
    (hbad : exec (bad.headD "") bad.tail = false)
    (hrun : st.running = true) :
    insert_orderbook_rows exec (pre ++ bad :: post) =
      (pre.map List.tail ++ bad.tail :: post, false) ∧
    (run_tick so jump false imb_ok st).running = true ∧
    "Unable to save orderbook data." ∈ (run_tick so jump false imb_ok st).errors := by
  refine ⟨insert_rows_failfast exec pre post bad hpre hbad, ?_, ?_⟩
  · simp [run_tick, hrun]
  · simp only [run_tick]
    split <;> simp

/-- Witness for C6: the second row's write fails; the third is untouched. -/
theorem C6_witness :
    (∀ r ∈ ([["BTCBUSD", "t1", "1"]] : List (List String)),
       demo_exec (r.headD "") r.tail = true) ∧
    demo_exec ((["BAD", "t2", "2"] : List String).headD "")
      (["BAD", "t2", "2"] : List String).tail = false ∧
    initial_run_state.running = true ∧
    (insert_orderbook_rows demo_exec
        ([["BTCBUSD", "t1", "1"]] ++ ["BAD", "t2", "2"] ::
          [["ETHBUSD", "t3", "3"]]) =
      (([["BTCBUSD", "t1", "1"]] : List (List String)).map List.tail ++
        (["BAD", "t2", "2"] : List String).tail :: [["ETHBUSD", "t3", "3"]],
       false) ∧
     (run_tick true true false true initial_run_state).running = true ∧
     "Unable to save orderbook data." ∈
       (run_tick true true false true initial_run_state).errors) :=
  ⟨by decide, by decide, rfl,
   C6_failfast_soft_failure demo_exec [["BTCBUSD", "t1", "1"]]
     [["ETHBUSD", "t3", "3"]] ["BAD", "t2", "2"] true true true
     initial_run_state (by decide) (by decide) rfl⟩

theorem flag_after_jump (ob_ok imb_ok : ℕ → Bool) (m : ℕ) :
    (run_ticks true true ob_ok imb_ok m).save_order_imbalance_count =
      decide (Even m) := by
  induction m with
  | zero => simp [run_ticks, initial_run_state]
  | succ m ih =>
    have hstep : (run_ticks true true ob_ok imb_ok (m + 1)).save_order_imbalance_count =
        !(run_ticks true true ob_ok imb_ok m).save_order_imbalance_count := by
      simp [run_ticks, run_tick]
    rw [hstep, ih, decide_eq_decide.mpr Nat.even_add_one, decide_not]

theorem flag_after_no_jump (ob_ok imb_ok : ℕ → Bool) (m : ℕ) :
    (run_ticks true false ob_ok imb_ok m).save_order_imbalance_count =
      true := by
  induction m with
  | zero => rfl
  | succ m ih => simp [run_ticks, run_tick, ih]

/-- **C7.** With imbalance saving enabled, the alternation flag starts
`true` and is negated after every tick when `SAVE_ORDER_IMBALANCE_JUMP` is
set, so the `n`-th tick (1-indexed) persists imbalance rows iff `n` is odd;
with the jump disabled the flag stays `true`, so every tick persists
imbalance rows. (Whether a tick saves is the flag's value after the
preceding `n - 1` ticks, read at lines 127 and 151.) -/
theorem C7_alternation (ob_ok imb_ok : ℕ → Bool) (n : ℕ) (h : 1 ≤ n) :
    ((run_ticks true true ob_ok imb_ok (n - 1)).save_order_imbalance_count
      = decide (Odd n)) ∧
    (run_ticks true false ob_ok imb_ok (n - 1)).save_order_imbalance_count
      = true := by
  refine ⟨?_, flag_after_no_jump ob_ok imb_ok (n - 1)⟩
  obtain ⟨m, rfl⟩ : ∃ m, n = m + 1 := ⟨n - 1, by omega⟩
  rw [Nat.add_sub_cancel, flag_after_jump]
  rw [decide_eq_decide]
  exact (Nat.odd_add_one.trans Nat.not_odd_iff_even).symm

/-- Witness for C7 at tick `n = 3` (an odd, hence saving, tick). -/
theorem C7_witness :
    1 ≤ 3 ∧
    (((run_ticks true true (fun _ => true) (fun _ => true)
        (3 - 1)).save_order_imbalance_count = decide (Odd 3)) ∧
     (run_ticks true false (fun _ => true) (fun _ => true)
        (3 - 1)).save_order_imbalance_count = true) :=
  ⟨by decide, C7_alternation (fun _ => true) (fun _ => true) 3 (by decide)⟩

theorem insert_rows_all_ok (exec : String → List String → Bool)
    (batch : List (List String))
    (hok : ∀ r ∈ batch, exec (r.headD "") r.tail = true) :
    insert_orderbook_rows exec batch = (batch.map List.tail, true) := by
  induction batch with
  | nil => rfl
  | cons r rest ih =>
    have hr : exec (r.head?.getD "") r.tail = true := by
      rw [← List.headD_eq_head?]
      exact hok r (List.mem_cons_self r rest)
    have ih' := ih (fun r' hr' => hok r' (List.mem_cons_of_mem r hr'))
    simp [insert_orderbook_rows, hr, ih']

/-- **C10.** `insert_orderbook_data` mutates its argument: each processed
row loses its leading market element in place (`data.pop(0)`), so after a
fully successful call the caller's rows are exactly the original rows with
their heads dropped — every surviving row starts with the timestamp, and a
non-empty batch is not left unchanged. -/
theorem C10_insert_pops_market (exec : String → List String → Bool)
    (batch : List (List String))
    (hshape : ∀ r ∈ batch, ∃ m d vs, r = m :: d :: vs)
    (hok : ∀ r ∈ batch, exec (r.headD "") r.tail = true) :
    (insert_orderbook_rows exec batch).1 = batch.map List.tail ∧
    (∀ r ∈ (insert_orderbook_rows exec batch).1,
       ∃ m d vs, (m :: d :: vs) ∈ batch ∧ r = d :: vs) ∧
    (batch ≠ [] → (insert_orderbook_rows exec batch).1 ≠ batch) := by
  have h1 : (insert_orderbook_rows exec batch).1 = batch.map List.tail := by
    rw [insert_rows_all_ok exec batch hok]
  refine ⟨h1, ?_, ?_⟩
  · intro r hr
    rw [h1] at hr
    obtain ⟨orig, horig, htail⟩ := List.mem_map.mp hr
    obtain ⟨m, d, vs, hshape'⟩ := hshape orig horig
    refine ⟨m, d, vs, by rw [← hshape']; exact horig, ?_⟩
    rw [← htail, hshape']
    rfl
  · intro hne hcontra
    rw [h1] at hcontra
    obtain ⟨b0, rest, rfl⟩ : ∃ b0 rest, batch = b0 :: rest := by
      cases batch with
      | nil => exact absurd rfl hne
      | cons b0 rest => exact ⟨b0, rest, rfl⟩
    obtain ⟨m, d, vs, hb0⟩ := hshape b0 (List.mem_cons_self b0 rest)
    have hhead : b0.tail = b0 := by
      have := congrArg (fun l => l.headD []) hcontra
      simpa using this
    rw [hb0] at hhead
    have := congrArg List.length hhead
    simp at this

/-- Witness for C10: a two-row batch, both writes succeeding. -/
theorem C10_witness :
    (∀ r ∈ ([["BTCBUSD", "t1", "1"], ["ETHBUSD", "t2", "2"]] :
        List (List String)), ∃ m d vs, r = m :: d :: vs) ∧
    (∀ r ∈ ([["BTCBUSD", "t1", "1"], ["ETHBUSD", "t2", "2"]] :
        List (List String)), demo_exec (r.headD "") r.tail = true) ∧
    ((insert_orderbook_rows demo_exec
        [["BTCBUSD", "t1", "1"], ["ETHBUSD", "t2", "2"]]).1 =
      ([["BTCBUSD", "t1", "1"], ["ETHBUSD", "t2", "2"]] :
        List (List String)).map List.tail ∧
     (∀ r ∈ (insert_orderbook_rows demo_exec
        [["BTCBUSD", "t1", "1"], ["ETHBUSD", "t2", "2"]]).1,
       ∃ m d vs, (m :: d :: vs) ∈
         ([["BTCBUSD", "t1", "1"], ["ETHBUSD", "t2", "2"]] :
           List (List String)) ∧ r = d :: vs) ∧
     (([["BTCBUSD", "t1", "1"], ["ETHBUSD", "t2", "2"]] :
         List (List String)) ≠ [] →
       (insert_orderbook_rows demo_exec
         [["BTCBUSD", "t1", "1"], ["ETHBUSD", "t2", "2"]]).1 ≠
       [["BTCBUSD", "t1", "1"], ["ETHBUSD", "t2", "2"]])) := by
  have hshape : ∀ r ∈ ([["BTCBUSD", "t1", "1"], ["ETHBUSD", "t2", "2"]] :
      List (List String)), ∃ m d vs, r = m :: d :: vs := by
    intro r hr
    rcases List.mem_cons.mp hr with h | h
    · exact ⟨"BTCBUSD", "t1", ["1"], h⟩
    · rcases List.mem_cons.mp h with h | h
      · exact ⟨"ETHBUSD", "t2", ["2"], h⟩
      · simp at h
  exact ⟨hshape, by decide,
    C10_insert_pops_market demo_exec
      [["BTCBUSD", "t1", "1"], ["ETHBUSD", "t2", "2"]] hshape (by decide)⟩

theorem aggFields_names (vals : List ℚ) :
    (aggFields vals).map Prod.fst = expected_field_names := rfl

/-- **C8.** An object is in `get_orderbook`'s result iff it is the
aggregate of a stored row whose epoch is divisible by the sampling period
and lies in the closed range `[start, stop]` — rows failing either
condition are excluded — and every emitted object merges all 20 levels'
column families (80 fields, `bid_price_1 .. ask_volume_20`). -/
theorem C8_read_query_filter (tbl : List StoredRow) (start stop period : ℤ)
    (x : AggRow) (hp : 0 < period) :
    (x ∈ get_orderbook tbl start stop period ↔
      ∃ r ∈ tbl, r.epoch % period = 0 ∧ start ≤ r.epoch ∧ r.epoch ≤ stop ∧
        x = ⟨r.epoch, aggFields r.vals⟩) ∧
    (x ∈ get_orderbook tbl start stop period →
      x.fields.map Prod.fst = expected_field_names) := by
  have h1 : x ∈ get_orderbook tbl start stop period ↔
      ∃ r ∈ tbl, r.epoch % period = 0 ∧ start ≤ r.epoch ∧ r.epoch ≤ stop ∧
        x = ⟨r.epoch, aggFields r.vals⟩ := by
    unfold get_orderbook
    rw [List.mem_map]
    constructor
    · rintro ⟨r, hr, rfl⟩
      rw [List.mem_filter] at hr
      obtain ⟨hrt, hcond⟩ := hr
      simp only [Bool.and_eq_true, decide_eq_true_eq] at hcond
      exact ⟨r, hrt, hcond.1.1, hcond.1.2, hcond.2, rfl⟩
    · rintro ⟨r, hrt, hc1, hc2, hc3, rfl⟩
      refine ⟨r, ?_, rfl⟩
      rw [List.mem_filter]
      refine ⟨hrt, ?_⟩
      simp [hc1, hc2, hc3]
  refine ⟨h1, fun hx => ?_⟩
  obtain ⟨r, _, _, _, _, rfl⟩ := h1.mp hx
  exact aggFields_names r.vals

/-- Witness for C8: period 30, range `[0, 100]`; epoch 60 matches, epoch 45
is excluded. -/
theorem C8_witness :
    (0 : ℤ) < 30 ∧
    (((⟨60, aggFields [1, 2]⟩ : AggRow) ∈
        get_orderbook [⟨60, [1, 2]⟩, ⟨45, [3]⟩] 0 100 30 ↔
      ∃ r ∈ ([⟨60, [1, 2]⟩, ⟨45, [3]⟩] : List StoredRow),
        r.epoch % 30 = 0 ∧ 0 ≤ r.epoch ∧ r.epoch ≤ 100 ∧
        (⟨60, aggFields [1, 2]⟩ : AggRow) = ⟨r.epoch, aggFields r.vals⟩) ∧
     ((⟨60, aggFields [1, 2]⟩ : AggRow) ∈
        get_orderbook [⟨60, [1, 2]⟩, ⟨45, [3]⟩] 0 100 30 →
       (⟨60, aggFields [1, 2]⟩ : AggRow).fields.map Prod.fst =
         expected_field_names)) :=
  ⟨by decide,
   C8_read_query_filter [⟨60, [1, 2]⟩, ⟨45, [3]⟩] 0 100 30
     ⟨60, aggFields [1, 2]⟩ (by decide)⟩

theorem get?_append_of_not_mem_right {l1 l2 : List TickEvent} {n : ℕ}
    {e : TickEvent} (h : (l1 ++ l2).get? n = some e) (he : e ∉ l2) :
    n < l1.length := by
  by_contra hn
  rw [List.get?_append_right (le_of_not_lt hn)] at h
  exact he (List.get?_mem h)

theorem le_of_get?_append_of_not_mem_left {l1 l2 : List TickEvent} {n : ℕ}
    {e : TickEvent} (h : (l1 ++ l2).get? n = some e) (he : e ∉ l1) :
    l1.length ≤ n := by
  by_contra hn
  rw [List.get?_append (lt_of_not_le hn)] at h
  exact he (List.get?_mem h)

/-- Counterexample to C9's "no shared mutable state is written by more than
one task": with the configured two-market set, the fan-out spawns two
distinct threads, and one and the same shared cell — the `orderbook_data`
list of the shared `DataLogger` object — is an append target of both of
them (whether or not the tick saves imbalance data). -/
theorem C9_counterexample :
    ∃ t1 t2, t1 ∈ spawned_threads EXCHANGE_MARKETS ∧
      t2 ∈ spawned_threads EXCHANGE_MARKETS ∧ t1 ≠ t2 ∧
      ∃ cell, cell ∈ thread_append_targets true t1 ∧
        cell ∈ thread_append_targets true t2 ∧
        cell ∈ thread_append_targets false t1 ∧
        cell ∈ thread_append_targets false t2 :=
  ⟨"BTCBUSD", "ETHBUSD", by decide, by decide, by decide,
   "orderbook_data", by decide, by decide, by decide, by decide⟩

/-- **C9 (amended).** At each sampling phase the loop spawns exactly one
fetch thread per configured market (`len(markets)` threads), and in the
tick's program order every thread join precedes the persistence events, so
all threads are joined before persistence begins; however, the threads do
write shared mutable state: the shared `orderbook_data` list is an append
target of every spawned thread (and `order_imbalance_data` too on saving
ticks). -/
theorem C9_fanout_join_before_persist (markets : List String)
    (save_imb : Bool) (m : String) (i j : ℕ)
    (hjoin : (tick_events markets save_imb).get? i =
      some (TickEvent.join m))
    (hpersist : (tick_events markets save_imb).get? j =
      some TickEvent.persist_orderbook) :
    (spawned_threads markets).length = markets.length ∧
    i < j ∧
    (∀ t ∈ spawned_threads markets,
      "orderbook_data" ∈ thread_append_targets save_imb t) := by
  have hA : tick_events markets save_imb =
      (markets.map TickEvent.spawn ++ markets.map TickEvent.join) ++
        ([TickEvent.persist_orderbook] ++
          (if save_imb then [TickEvent.persist_imbalance] else [])) := by
    unfold tick_events
    simp [List.append_assoc]
  rw [hA] at hjoin hpersist
  refine ⟨rfl, ?_, ?_⟩
  · have hi : i <
        (markets.map TickEvent.spawn ++ markets.map TickEvent.join).length := by
      refine get?_append_of_not_mem_right hjoin ?_
      cases save_imb <;> simp
    have hj : (markets.map TickEvent.spawn ++
        markets.map TickEvent.join).length ≤ j := by
      refine le_of_get?_append_of_not_mem_left hpersist ?_
      simp
    omega
  · intro t _
    cases save_imb <;> simp [thread_append_targets]

/-- Witness for the amended C9: the configured two markets on a saving
tick; the join of `BTCBUSD` sits at position 2, the order-book persist at
position 4. -/
theorem C9_witness :
    ((tick_events EXCHANGE_MARKETS true).get? 2 =
      some (TickEvent.join "BTCBUSD")) ∧
    ((tick_events EXCHANGE_MARKETS true).get? 4 =
      some TickEvent.persist_orderbook) ∧
    ((spawned_threads EXCHANGE_MARKETS).length = EXCHANGE_MARKETS.length ∧
     2 < 4 ∧
     (∀ t ∈ spawned_threads EXCHANGE_MARKETS,
       "orderbook_data" ∈ thread_append_targets true t)) :=
  ⟨by decide, by decide,
   C9_fanout_join_before_persist EXCHANGE_MARKETS true "BTCBUSD" 2 4
     (by decide) (by decide)⟩

end OrderBookFutures
